import Mathlib

/-!
# Formal model of the autoblog content pipeline

This file gives a shallow embedding of the core of the `autoblog`
repository: the JSON-file metadata store (`src/storage/json_storage.py`),
the news-source parsers with their deduplication and trend-scoring logic
(`src/trends/parsers/*.py`), the trend analyzer
(`src/trends/analyzers/trend_analyzer.py`) and the aggregation loop of the
orchestrator (`src/core/system.py`), together with theorems about their
behaviour.

Modelling conventions:
* Python strings are modelled as `List Char`; Python's substring test
  (`a in b`), `str.lower`, `str.split`, `os.path.splitext` and
  `os.path.join` are reimplemented below with the same semantics.
* Python floats are modelled as `ℚ`; every float computed by the scoring
  code is a small exact decimal, so rational arithmetic agrees with the
  float arithmetic of the source on all the values the theorems mention.
* JSON values are an inductive type; Python dicts are association lists
  that preserve insertion order, as Python dicts do.
* The file system is an association list from full paths to JSON values;
  file mtimes appear as explicit numeric fields where the code sorts by
  them.
* `sorted(key=k, reverse=True)` is modelled as
  `List.insertionSort (fun a b => k b ≤ k a)`, which is a stable
  descending sort, matching CPython's documented stable sort.
-/

namespace Autoblog

/-- The type used to model Python strings. -/
abbrev Str := List Char

/-! ## String primitives -/

/-- Here `isPre pat s` is true when `pat` is an initial segment of `s`
(Python `s.startswith(pat)`). -/
def isPre : Str → Str → Bool
  | [], _ => true
  | _ :: _, [] => false
  | a :: as, b :: bs => a == b && isPre as bs

/-- Here `containsSub pat s` is Python's substring test `pat in s`. -/
def containsSub (pat : Str) : Str → Bool
  | [] => isPre pat []
  | c :: rest => isPre pat (c :: rest) || containsSub pat rest

/-- Here `endsWith pat s` is Python `s.endswith(pat)`. -/
def endsWith (pat s : Str) : Bool :=
  isPre pat.reverse s.reverse

/-- Python `str.lower` (adequate for the ASCII/Korean data of the source:
Korean characters have no case). -/
def strLower (s : Str) : Str :=
  s.map Char.toLower

/-- Python `s.split(c)` for a single-character separator: always returns at
least one (possibly empty) piece. -/
def splitOnChar (c : Char) : Str → List Str
  | [] => [[]]
  | x :: rest =>
    match splitOnChar c rest with
    | [] => [[]]
    | g :: gs => if x = c then [] :: g :: gs else (x :: g) :: gs

/-- Helper for `splitext`: scanning the reversed basename that precedes a
candidate extension dot, is there any character other than `.` before the
next path separator?  (Python treats an all-dots prefix as "no extension",
e.g. `.bashrc` has none.) -/
def hasNonDotBeforeSlash : Str → Bool
  | [] => false
  | c :: rest => if c = '/' then false
      else if c = '.' then hasNonDotBeforeSlash rest
      else true

/-- Helper for `splitext`: given the reversed path, the length of the
extension including its dot, if the path has one. -/
def extLen : Str → ℕ → Option ℕ
  | [], _ => none
  | c :: rest, acc =>
    if c = '/' then none
    else if c = '.' then (if hasNonDotBeforeSlash rest then some (acc + 1) else none)
    else extLen rest (acc + 1)

/-- Model of `os.path.splitext`: split a path into root and extension.  The
extension starts at the last `.` of the basename, provided some earlier
character of the basename is not a dot. -/
def splitext (p : Str) : Str × Str :=
  match extLen p.reverse 0 with
  | none => (p, [])
  | some k => (p.take (p.length - k), p.drop (p.length - k))

/-- Model of `os.path.join` for two components, as the source uses it: an absolute
second component discards the first; otherwise the parts are joined with a
single `/` unless the first already ends in one. -/
def pyJoin (a b : Str) : Str :=
  if b.head? = some '/' then b
  else if a = [] then b
  else if a.getLast? = some '/' then a ++ b
  else a ++ '/' :: b

/-- One step of `str.format`-style replacement: rewrite every occurrence of
`pat` in the subject, scanning left to right (Python replaces every
occurrence of the `{job_id}` field). -/
def replAll (pat rep : Str) : Str → Str
  | [] => []
  | c :: rest =>
    if isPre pat (c :: rest) then
      rep ++ replAll pat rep (rest.drop (pat.length - 1))
    else
      c :: replAll pat rep rest
termination_by s => s.length
decreasing_by
  · simp only [List.length_cons, List.length_drop]
    omega
  · simp only [List.length_cons]
    omega

/-! ## Articles -/

/-- A normalized article, as built by the parsers (`_fetch_top_news` /
`_fetch_news`): the dictionary keys become fields; `source.name` is
flattened to `sourceName`, and `image` keeps the URL string (the scorer
only tests its truthiness). -/
structure Article where
  title : Str
  description : Str
  content : Str
  url : Str
  published_at : Str
  sourceName : Str
  category : Str
  image : Str
  keywords : List Str
deriving DecidableEq, Repr, Inhabited

/-! ## Trend scores of the three parsers -/

/-- The fixed allow-list of well-known outlets of
`NaverNewsParser._extract_trending_articles`. -/
def naverTrustedSources : List Str :=
  [("네이버 뉴스").toList, ("중앙일보").toList, ("조선일보").toList,
   ("KBS 뉴스").toList, ("MBC 뉴스").toList, ("SBS 뉴스").toList,
   ("연합뉴스").toList]

/-- Trend score of `GNewsParser._extract_trending_articles`: category
weight 1.2 for technology/business, source weight fixed at 1.0, content
quality `min(1, len(description)/200)`, capped at 100. -/
def gnewsTrendScore (a : Article) : ℚ :=
  min 100 (60 *
    (if a.category ∈ [("technology").toList, ("business").toList] then (1.2:ℚ) else 1) *
    1 *
    min 1 ((a.description.length : ℚ) / 200))

/-- Trend score of `NaverNewsParser._extract_trending_articles`: source
weight 1.2 for the trusted-outlet allow-list, content quality
`min(1, len(description)/150)`, capped at 100; no category factor. -/
def naverTrendScore (a : Article) : ℚ :=
  min 100 (60 *
    (if a.sourceName ∈ naverTrustedSources then (1.2:ℚ) else 1) *
    min 1 ((a.description.length : ℚ) / 150))

/-- Trend score of `NewsAPIParser._extract_trending_articles`: category
weight 1.2 for technology/business, image weight 1.1 when an image URL is
present, content quality `min(1, len(description)/150)`, capped at 100. -/
def newsapiTrendScore (a : Article) : ℚ :=
  min 100 (60 *
    (if a.category ∈ [("technology").toList, ("business").toList] then (1.2:ℚ) else 1) *
    (if a.image ≠ [] then (1.1:ℚ) else 1) *
    min 1 ((a.description.length : ℚ) / 150))

/-- Modelled from the spec: the trend-score formula of §4.4 as the claim
states it, `60 × categoryWeight × sourceWeight × contentQualityFactor`
clamped to [0, 100], with `categoryWeight` 1.2 for technology/business,
`sourceWeight` 1.2 on an allow-list of outlets, and
`contentQualityFactor = min(1, len(description)/L)`.  The parameters
`L`, `allow` and `useCat` localize the per-provider differences the code
actually has; the claim corresponds to `useCat := true` with the one
allow-list present in the source, `naverTrustedSources`. -/
def specTrendScore (L : ℚ) (allow : List Str) (useCat : Bool) (a : Article) : ℚ :=
  max 0 (min 100 (60 *
    (if useCat then
      (if a.category ∈ [("technology").toList, ("business").toList] then (1.2:ℚ) else 1)
     else 1) *
    (if a.sourceName ∈ allow then (1.2:ℚ) else 1) *
    min 1 ((a.description.length : ℚ) / L)))

/-! ### C9: scores are always within [0, 100] -/

private lemma min100_nonneg {x : ℚ} (hx : 0 ≤ x) : 0 ≤ min 100 x :=
  le_min (by norm_num) hx

private lemma min100_le (x : ℚ) : min 100 x ≤ 100 :=
  min_le_left _ _

private lemma weight_min_nonneg {w q : ℚ} (hw : 0 ≤ w) (hq : 0 ≤ q) :
    0 ≤ w * min 1 q :=
  mul_nonneg hw (le_min zero_le_one hq)

private lemma ite_nonneg {c : Prop} [Decidable c] {x y : ℚ} (hx : 0 ≤ x) (hy : 0 ≤ y) :
    (0:ℚ) ≤ if c then x else y := by
  split_ifs <;> assumption

/-- C9: For every article and every description length (including zero and
lengths far above the normalization constant), the trend score assigned by
each of the three parsers lies within [0, 100]. -/
theorem trend_scores_within_bounds (a : Article) :
    (0 ≤ gnewsTrendScore a ∧ gnewsTrendScore a ≤ 100) ∧
    (0 ≤ naverTrendScore a ∧ naverTrendScore a ≤ 100) ∧
    (0 ≤ newsapiTrendScore a ∧ newsapiTrendScore a ≤ 100) := by
  have hq200 : (0:ℚ) ≤ (a.description.length : ℚ) / 200 := by positivity
  have hq150 : (0:ℚ) ≤ (a.description.length : ℚ) / 150 := by positivity
  have h12 : (0:ℚ) ≤ 1.2 := by norm_num
  have h11 : (0:ℚ) ≤ 1.1 := by norm_num
  refine ⟨⟨?_, min100_le _⟩, ⟨?_, min100_le _⟩, ⟨?_, min100_le _⟩⟩
  · exact min100_nonneg (weight_min_nonneg
      (mul_nonneg (mul_nonneg (by norm_num) (ite_nonneg h12 zero_le_one)) zero_le_one)
      hq200)
  · exact min100_nonneg (weight_min_nonneg
      (mul_nonneg (by norm_num) (ite_nonneg h12 zero_le_one)) hq150)
  · exact min100_nonneg (weight_min_nonneg
      (mul_nonneg (mul_nonneg (by norm_num) (ite_nonneg h12 zero_le_one))
        (ite_nonneg h11 zero_le_one)) hq150)

/-! ### C2: how the per-provider score formulas relate to the spec formula -/

/-- C2 (counterexample): the claim's formula applies the 1.2 source weight
to well-known outlets in every parser, but `GNewsParser` fixes the source
weight at 1.0.  An article in the GNews pipeline whose source is the
well-known outlet `연합뉴스`, with a generic category and a 200-character
description, gets trend score 60 from the code while the claimed formula
gives 72. -/
def c2Article : Article :=
  { title := [], description := List.replicate 200 'x', content := [], url := [],
    published_at := [], sourceName := ("연합뉴스").toList,
    category := ("general").toList, image := [], keywords := [] }

/-- C2 is false as stated: on `c2Article` the GNews parser stores 60, while
`60 × categoryWeight × sourceWeight × contentQualityFactor` with the
source allow-list is 72. -/
theorem c2_trend_score_counterexample :
    gnewsTrendScore c2Article = 60 ∧
    specTrendScore 200 naverTrustedSources true c2Article = 72 ∧
    gnewsTrendScore c2Article ≠ specTrendScore 200 naverTrustedSources true c2Article := by
  have hcat : ¬ (c2Article.category ∈ [("technology").toList, ("business").toList]) := by
    decide
  have hsrc : c2Article.sourceName ∈ naverTrustedSources := by decide
  have hlen : ((c2Article.description.length : ℚ) / 200) = 1 := by
    have h : c2Article.description.length = 200 := List.length_replicate 200 'x'
    rw [h]; norm_num
  have h1 : gnewsTrendScore c2Article = 60 := by
    unfold gnewsTrendScore
    rw [if_neg hcat, hlen, min_self,
      show (60:ℚ) * 1 * 1 * 1 = 60 by norm_num]
    exact min_eq_right (by norm_num)
  have h2 : specTrendScore 200 naverTrustedSources true c2Article = 72 := by
    unfold specTrendScore
    rw [if_pos rfl, if_neg hcat, if_pos hsrc, hlen, min_self,
      show (60:ℚ) * 1 * 1.2 * 1 = 72 by norm_num,
      min_eq_right (by norm_num : (72:ℚ) ≤ 100)]
    exact max_eq_right (by norm_num)
  exact ⟨h1, h2, by rw [h1, h2]; norm_num⟩

/-- C2 (amended): per provider, the code's trend score agrees with the
spec formula only after localizing the weights — the GNews parser uses the
category weight, normalization constant 200 and an empty source
allow-list (its source weight is always 1.0), while the Naver parser uses
no category weight, normalization constant 150 and the trusted-outlet
allow-list. -/
theorem c2_trend_score_amended (a : Article) :
    gnewsTrendScore a = specTrendScore 200 [] true a ∧
    naverTrendScore a = specTrendScore 150 naverTrustedSources false a := by
  have hq200 : (0:ℚ) ≤ (a.description.length : ℚ) / 200 := by positivity
  have hq150 : (0:ℚ) ≤ (a.description.length : ℚ) / 150 := by positivity
  have h12 : (0:ℚ) ≤ 1.2 := by norm_num
  constructor
  · unfold gnewsTrendScore specTrendScore
    rw [if_pos rfl, if_neg (List.not_mem_nil a.sourceName)]
    exact (max_eq_right (min100_nonneg (weight_min_nonneg
      (mul_nonneg (mul_nonneg (by norm_num) (ite_nonneg h12 zero_le_one)) zero_le_one)
      hq200))).symm
  · unfold naverTrendScore specTrendScore
    rw [if_neg Bool.false_ne_true, mul_one]
    exact (max_eq_right (min100_nonneg (weight_min_nonneg
      (mul_nonneg (by norm_num) (ite_nonneg h12 zero_le_one)) hq150))).symm

/-! ## Deduplication and blacklist filtering (`_filter_and_deduplicate_articles`) -/

/-- Model of `_contains_blacklisted_terms`: the text contains some blacklist term,
case-insensitively; an empty text never matches. -/
def contains_blacklisted_terms (blacklist : List Str) (text : Str) : Bool :=
  if text = [] then false
  else blacklist.any (fun term => containsSub (strLower term) (strLower text))

/-- The `unique_articles` dict of `_filter_and_deduplicate_articles`: a
URL-keyed, insertion-ordered map keeping the first article per non-empty
URL. -/
def dedupPairs (articles : List Article) : List (Str × Article) :=
  articles.foldl
    (fun acc a => if a.url ≠ [] ∧ a.url ∉ acc.map Prod.fst then acc ++ [(a.url, a)] else acc)
    []

/-- Model of `_filter_and_deduplicate_articles`: URL dedup followed by a second
blacklist pass over the surviving articles, in dict order. -/
def filter_and_deduplicate_articles (blacklist : List Str) (articles : List Article) :
    List Article :=
  ((dedupPairs articles).map Prod.snd).filter
    (fun a => !(contains_blacklisted_terms blacklist (a.title ++ ' ' :: a.description)))

/-- Recursive reformulation of the dedup loop, carrying the set of URLs
already seen; used to reason about `dedupPairs`. -/
def dedupRec (seen : List Str) : List Article → List Article
  | [] => []
  | a :: rest =>
    if a.url ≠ [] ∧ a.url ∉ seen then a :: dedupRec (a.url :: seen) rest
    else dedupRec seen rest

private lemma dedupRec_congr (arts : List Article) :
    ∀ s1 s2 : List Str, (∀ u, u ∈ s1 ↔ u ∈ s2) → dedupRec s1 arts = dedupRec s2 arts := by
  induction arts with
  | nil => intro s1 s2 _; rfl
  | cons a rest ih =>
    intro s1 s2 hiff
    simp only [dedupRec]
    by_cases h : a.url ≠ [] ∧ a.url ∉ s1
    · rw [if_pos h, if_pos ⟨h.1, fun hm => h.2 ((hiff a.url).mpr hm)⟩]
      exact congrArg _ (ih _ _ (fun u => by simp [hiff u]))
    · rw [if_neg h, if_neg (fun hc => h ⟨hc.1, fun hm => hc.2 ((hiff a.url).mp hm)⟩)]
      exact ih _ _ hiff

private lemma dedupPairs_eq_dedupRec (arts : List Article) :
    ∀ acc : List (Str × Article),
      (arts.foldl
        (fun acc a => if a.url ≠ [] ∧ a.url ∉ acc.map Prod.fst then acc ++ [(a.url, a)] else acc)
        acc).map Prod.snd
      = acc.map Prod.snd ++ dedupRec (acc.map Prod.fst) arts := by
  induction arts with
  | nil => intro acc; simp [dedupRec]
  | cons a rest ih =>
    intro acc
    simp only [List.foldl_cons, dedupRec]
    by_cases h : a.url ≠ [] ∧ a.url ∉ acc.map Prod.fst
    · rw [if_pos h, if_pos h, ih,
        dedupRec_congr rest ((acc ++ [(a.url, a)]).map Prod.fst) (a.url :: acc.map Prod.fst)
          (fun u => by simp [or_comm])]
      simp
    · rw [if_neg h, if_neg h, ih]

private lemma dedupRec_sublist (arts : List Article) :
    ∀ seen, (dedupRec seen arts).Sublist arts := by
  induction arts with
  | nil => intro seen; simp [dedupRec]
  | cons a rest ih =>
    intro seen
    simp only [dedupRec]
    split_ifs with h
    · exact (ih (a.url :: seen)).cons₂ a
    · exact (ih seen).cons a

private lemma dedupRec_mem_spec (arts : List Article) :
    ∀ seen, ∀ b ∈ dedupRec seen arts, b.url ∉ seen ∧ b.url ≠ [] := by
  induction arts with
  | nil => intro seen b hb; simp [dedupRec] at hb
  | cons a rest ih =>
    intro seen b hb
    simp only [dedupRec] at hb
    split_ifs at hb with h
    · rcases List.mem_cons.mp hb with rfl | hb'
      · exact ⟨h.2, h.1⟩
      · have := ih (a.url :: seen) b hb'
        exact ⟨fun hm => this.1 (List.mem_cons_of_mem _ hm), this.2⟩
    · exact ih seen b hb

private lemma dedupRec_pairwise (arts : List Article) :
    ∀ seen, (dedupRec seen arts).Pairwise (fun x y => x.url ≠ y.url) := by
  induction arts with
  | nil => intro seen; simp [dedupRec]
  | cons a rest ih =>
    intro seen
    simp only [dedupRec]
    split_ifs with h
    · refine List.pairwise_cons.mpr ⟨?_, ih (a.url :: seen)⟩
      intro b hb heq
      exact (dedupRec_mem_spec rest (a.url :: seen) b hb).1 (heq ▸ List.mem_cons_self _ _)
    · exact ih seen

private lemma dedupRec_first_mem :
    ∀ (pre : List Article) (seen : List Str) (a : Article) (post : List Article),
      a.url ≠ [] → a.url ∉ seen → (∀ b ∈ pre, b.url ≠ a.url) →
      a ∈ dedupRec seen (pre ++ a :: post) := by
  intro pre
  induction pre with
  | nil =>
    intro seen a post hurl hseen _
    simp only [List.nil_append, dedupRec, if_pos (And.intro hurl hseen)]
    exact List.mem_cons_self _ _
  | cons p pre' ih =>
    intro seen a post hurl hseen hpre
    simp only [List.cons_append, dedupRec]
    have hpa : p.url ≠ a.url := hpre p (List.mem_cons_self _ _)
    split_ifs with h
    · refine List.mem_cons_of_mem _ (ih (p.url :: seen) a post hurl ?_ ?_)
      · intro hm
        rcases List.mem_cons.mp hm with heq | hm'
        · exact hpa heq.symm
        · exact hseen hm'
      · exact fun b hb => hpre b (List.mem_cons_of_mem _ hb)
    · exact ih seen a post hurl hseen (fun b hb => hpre b (List.mem_cons_of_mem _ hb))

private lemma dedupPairs_snd (arts : List Article) :
    (dedupPairs arts).map Prod.snd = dedupRec [] arts := by
  simpa using dedupPairs_eq_dedupRec arts []

/-- C7: deduplication keeps exactly the first-encountered article for each
canonical URL (articles without a URL are dropped), and the output
preserves the relative order of those first occurrences.  With an empty
blacklist, the full `_filter_and_deduplicate_articles` is exactly the
dedup pass; the dedup output is a sublist of the input (order preserved),
its URLs are pairwise distinct and non-empty, and every first occurrence
of a non-empty URL survives. -/
theorem c7_dedup_keeps_first_occurrence (arts : List Article) :
    filter_and_deduplicate_articles [] arts = (dedupPairs arts).map Prod.snd ∧
    ((dedupPairs arts).map Prod.snd).Sublist arts ∧
    ((dedupPairs arts).map Prod.snd).Pairwise (fun x y => x.url ≠ y.url) ∧
    (∀ b ∈ (dedupPairs arts).map Prod.snd, b.url ≠ []) ∧
    (∀ pre a post, arts = pre ++ a :: post → a.url ≠ [] →
      (∀ b ∈ pre, b.url ≠ a.url) → a ∈ (dedupPairs arts).map Prod.snd) := by
  refine ⟨?_, ?_, ?_, ?_, ?_⟩
  · unfold filter_and_deduplicate_articles
    refine List.filter_eq_self.mpr (fun a _ => ?_)
    simp [contains_blacklisted_terms]
  · rw [dedupPairs_snd]; exact dedupRec_sublist arts []
  · rw [dedupPairs_snd]; exact dedupRec_pairwise arts []
  · rw [dedupPairs_snd]
    exact fun b hb => (dedupRec_mem_spec arts [] b hb).2
  · intro pre a post harts hurl hpre
    rw [dedupPairs_snd, harts]
    exact dedupRec_first_mem pre [] a post hurl (List.not_mem_nil _) hpre

/-- Concrete articles for the C7 witness: two sharing a URL and one with
no URL. -/
def c7a1 : Article :=
  { title := ("t1").toList, description := [], content := [], url := ("u1").toList,
    published_at := [], sourceName := [], category := [], image := [], keywords := [] }

/-- Second article of the C7 witness, an exact-URL duplicate of `c7a1`. -/
def c7a2 : Article :=
  { title := ("t2").toList, description := [], content := [], url := ("u1").toList,
    published_at := [], sourceName := [], category := [], image := [], keywords := [] }

/-- Third article of the C7 witness, with a fresh URL and an empty-URL
predecessor pattern exercised through `c7a4`. -/
def c7a3 : Article :=
  { title := ("t3").toList, description := [], content := [], url := ("u2").toList,
    published_at := [], sourceName := [], category := [], image := [], keywords := [] }

/-- Fourth article of the C7 witness: no URL, so dedup drops it. -/
def c7a4 : Article :=
  { title := ("t4").toList, description := [], content := [], url := [],
    published_at := [], sourceName := [], category := [], image := [], keywords := [] }

/-- Witness for C7 at a concrete input: in `[c7a1, c7a2, c7a4, c7a3]` the
first occurrence `c7a3` of URL `u2` (preceded by articles with other
URLs) survives deduplication, and the full dedup output is
`[c7a1, c7a3]`. -/
theorem c7_witness :
    c7a3 ∈ (dedupPairs [c7a1, c7a2, c7a4, c7a3]).map Prod.snd ∧
    (dedupPairs [c7a1, c7a2, c7a4, c7a3]).map Prod.snd = [c7a1, c7a3] :=
  ⟨(c7_dedup_keeps_first_occurrence [c7a1, c7a2, c7a4, c7a3]).2.2.2.2
      [c7a1, c7a2, c7a4] c7a3 [] rfl (by decide) (by decide),
    by decide⟩

/-! ## Trend ranking (`_extract_trending_articles`) and aggregation -/

/-- Model of `GNewsParser._extract_trending_articles`: sort by publish time
descending, attach the trend score to each article, then sort by trend
score descending.  Python `sorted` is stable, modelled by
`List.insertionSort` with a non-strict descending comparison. -/
def extract_trending_articles (arts : List Article) : List (Article × ℚ) :=
  List.insertionSort (fun x y : Article × ℚ => y.2 ≤ x.2)
    ((List.insertionSort (fun x y : Article => y.published_at ≤ x.published_at) arts).map
      (fun a => (a, gnewsTrendScore a)))

private lemma pairwise_orderedInsert_of {α : Type} {r : α → α → Prop} [DecidableRel r]
    {Q : α → α → Prop} (x : α) :
    ∀ L : List α, L.Pairwise Q → (∀ z ∈ L, Q x z) → (∀ y ∈ L, ¬ r x y → Q y x) →
      (List.orderedInsert r x L).Pairwise Q := by
  intro L
  induction L with
  | nil => intro _ _ _; simp [List.orderedInsert]
  | cons b bs ih =>
    intro hP hxz hyx
    rw [List.orderedInsert]
    split_ifs with hrb
    · exact List.pairwise_cons.mpr ⟨hxz, hP⟩
    · refine List.pairwise_cons.mpr ⟨?_, ?_⟩
      · intro z hz
        rcases (List.mem_orderedInsert r).mp hz with rfl | hz'
        · exact hyx b (List.mem_cons_self _ _) hrb
        · exact (List.pairwise_cons.mp hP).1 z hz'
      · exact ih (List.pairwise_cons.mp hP).2
          (fun z hz => hxz z (List.mem_cons_of_mem _ hz))
          (fun y hy => hyx y (List.mem_cons_of_mem _ hy))

private lemma pairwise_insertionSort_of {α : Type} {r : α → α → Prop} [DecidableRel r]
    {Q : α → α → Prop} (hcompat : ∀ x y, ¬ r x y → Q y x) :
    ∀ L : List α, L.Pairwise Q → (List.insertionSort r L).Pairwise Q := by
  intro L
  induction L with
  | nil => intro _; simp
  | cons x xs ih =>
    intro hP
    rw [List.insertionSort]
    refine pairwise_orderedInsert_of x _ (ih (List.pairwise_cons.mp hP).2) ?_
      (fun y _ hr => hcompat x y hr)
    intro z hz
    exact (List.pairwise_cons.mp hP).1 z ((List.mem_insertionSort r).mp hz)

/-- C3 (amended): the parser's ranked list is sorted descending by trend
score; it is a permutation of the input carrying each article's score; and
articles with equal trend scores appear in descending `published_at`
order — the order of the pre-sort the code performs before scoring — not
in post-deduplication input order. -/
theorem c3_ranking_amended (arts : List Article) :
    List.Sorted (fun p q : Article × ℚ => q.2 ≤ p.2) (extract_trending_articles arts) ∧
    ((extract_trending_articles arts).map Prod.fst).Perm arts ∧
    List.Pairwise (fun p q : Article × ℚ => p.2 = q.2 →
      q.1.published_at ≤ p.1.published_at) (extract_trending_articles arts) ∧
    (∀ p ∈ extract_trending_articles arts, p.2 = gnewsTrendScore p.1) := by
  haveI htotScore : IsTotal (Article × ℚ) (fun x y => y.2 ≤ x.2) :=
    ⟨fun a b => le_total b.2 a.2⟩
  haveI htransScore : IsTrans (Article × ℚ) (fun x y => y.2 ≤ x.2) :=
    ⟨fun _ _ _ h1 h2 => le_trans h2 h1⟩
  haveI htotPub : IsTotal Article (fun x y => y.published_at ≤ x.published_at) :=
    ⟨fun a b => le_total b.published_at a.published_at⟩
  haveI htransPub : IsTrans Article (fun x y => y.published_at ≤ x.published_at) :=
    ⟨fun _ _ _ h1 h2 => le_trans h2 h1⟩
  refine ⟨List.sorted_insertionSort _ _, ?_, ?_, ?_⟩
  · have p1 := (List.perm_insertionSort (fun x y : Article × ℚ => y.2 ≤ x.2)
      ((List.insertionSort (fun x y : Article => y.published_at ≤ x.published_at) arts).map
        (fun a => (a, gnewsTrendScore a)))).map Prod.fst
    have p3 : ((List.insertionSort (fun x y : Article => y.published_at ≤ x.published_at)
          arts).map (fun a => (a, gnewsTrendScore a))).map Prod.fst
        = List.insertionSort (fun x y : Article => y.published_at ≤ x.published_at) arts := by
      simp [List.map_map, Function.comp_def]
    rw [p3] at p1
    exact p1.trans (List.perm_insertionSort _ arts)
  · refine pairwise_insertionSort_of (fun x y hr heq => absurd (le_of_eq heq) hr) _ ?_
    refine List.pairwise_map.mpr ?_
    refine List.Pairwise.imp ?_ (List.sorted_insertionSort _ arts)
    exact fun h _ => h
  · intro p hp
    have := (List.mem_insertionSort _).mp hp
    rcases List.mem_map.mp this with ⟨a, _, rfl⟩
    rfl

/-- First article of the C3 counterexample: published earlier. -/
def c3a1 : Article :=
  { title := ("t1").toList, description := [], content := [], url := ("u1").toList,
    published_at := ("2024-01-01").toList, sourceName := [], category := [],
    image := [], keywords := [] }

/-- Second article of the C3 counterexample: same (zero) trend score,
published later. -/
def c3a2 : Article :=
  { title := ("t2").toList, description := [], content := [], url := ("u2").toList,
    published_at := ("2024-01-02").toList, sourceName := [], category := [],
    image := [], keywords := [] }

private lemma gnewsTrendScore_of_empty_description {a : Article}
    (hd : a.description = []) : gnewsTrendScore a = 0 := by
  unfold gnewsTrendScore
  rw [hd]
  norm_num

/-- C3 is false as stated: `c3a1` and `c3a2` tie on trend score and appear
in the post-dedup input in the order `[c3a1, c3a2]`, but the ranked list
puts `c3a2` first, because the code pre-sorts by publish time descending
before the (stable) score sort. -/
theorem c3_ranking_counterexample :
    gnewsTrendScore c3a1 = gnewsTrendScore c3a2 ∧
    (extract_trending_articles [c3a1, c3a2]).map Prod.fst = [c3a2, c3a1] ∧
    c3a1 ≠ c3a2 := by
  have h1 : gnewsTrendScore c3a1 = 0 := gnewsTrendScore_of_empty_description rfl
  have h2 : gnewsTrendScore c3a2 = 0 := gnewsTrendScore_of_empty_description rfl
  have hpub : ¬ ((c3a2.published_at : Str) ≤ c3a1.published_at) := by decide
  refine ⟨h1.trans h2.symm, ?_, by decide⟩
  unfold extract_trending_articles
  rw [List.insertionSort, List.insertionSort, List.insertionSort,
    List.orderedInsert, List.orderedInsert, if_neg hpub, List.orderedInsert]
  simp only [List.map_cons, List.map_nil]
  rw [List.insertionSort, List.insertionSort, List.insertionSort,
    List.orderedInsert, List.orderedInsert,
    if_pos (by rw [h1, h2] : gnewsTrendScore c3a1 ≤ gnewsTrendScore c3a2)]
  simp

/-- Model of `GNewsParser.get_trends`, abstracted over the network: `fetched` is
the outcome of fetching all configured categories (`.error` when the body
of the `try` raises).  On error the parser logs and returns `[]`; on
success it returns the filtered, deduplicated, scored and ranked articles,
truncated to `max_trends`. -/
def get_trends (blacklist : List Str) (max_trends : ℕ)
    (fetched : Except Str (List Article)) : List (Article × ℚ) :=
  match fetched with
  | .error _ => []
  | .ok all_articles =>
    if all_articles.isEmpty then []
    else
      (extract_trending_articles (filter_and_deduplicate_articles blacklist all_articles)).take
        max_trends

/-- Model of `BlogAutomationSystem.discover_trends`: every configured parser is
called in order and the results are concatenated (`articles.extend`).
Each parser is given by its blacklist, its `max_trends` and its fetch
outcome. -/
def discover_trends
    (parsers : List (List Str × ℕ × Except Str (List Article))) : List (Article × ℚ) :=
  (parsers.map (fun p => get_trends p.1 p.2.1 p.2.2)).flatten

/-- C5: a provider whose fetch raises contributes zero results and never
aborts the aggregation of the other providers — the aggregate over a
parser list containing a failing provider equals the aggregate over the
same list with that provider removed. -/
theorem c5_provider_failure_isolated
    (pre post : List (List Str × ℕ × Except Str (List Article)))
    (blacklist : List Str) (max_trends : ℕ) (e : Str) :
    discover_trends (pre ++ (blacklist, max_trends, Except.error e) :: post)
      = discover_trends (pre ++ post) := by
  simp [discover_trends, get_trends]

/-! ## Trend analyzer (`GNewsTrendAnalyzer`) -/

/-- The fixed category taxonomy with its keyword lists
(`GNewsTrendAnalyzer.__init__`, `self.categories`), in dict order. -/
def categoryKeywordTable : List (Str × List Str) :=
  [((("tech").toList),
    [("기술").toList, ("인공지능").toList, ("AI").toList, ("로봇").toList,
     ("자율주행").toList, ("블록체인").toList, ("암호화폐").toList, ("빅데이터").toList,
     ("클라우드").toList, ("사물인터넷").toList, ("IoT").toList, ("5G").toList,
     ("가상현실").toList, ("VR").toList, ("증강현실").toList, ("AR").toList]),
   ((("business").toList),
    [("경제").toList, ("주식").toList, ("투자").toList, ("창업").toList,
     ("스타트업").toList, ("비즈니스").toList, ("마케팅").toList, ("금융").toList,
     ("부동산").toList, ("재테크").toList, ("세금").toList, ("주택").toList]),
   ((("health").toList),
    [("건강").toList, ("의료").toList, ("질병").toList, ("다이어트").toList,
     ("운동").toList, ("웰빙").toList, ("영양").toList, ("면역").toList,
     ("정신건강").toList, ("수면").toList, ("요가").toList]),
   ((("lifestyle").toList),
    [("라이프스타일").toList, ("여행").toList, ("음식").toList, ("패션").toList,
     ("뷰티").toList, ("인테리어").toList, ("취미").toList, ("문화").toList,
     ("예술").toList, ("영화").toList, ("음악").toList, ("독서").toList]),
   ((("education").toList),
    [("교육").toList, ("학습").toList, ("공부").toList, ("시험").toList,
     ("취업").toList, ("자격증").toList, ("어학").toList, ("프로그래밍").toList,
     ("코딩").toList, ("자기계발").toList]),
   ((("social").toList),
    [("사회").toList, ("정치").toList, ("환경").toList, ("기후변화").toList,
     ("인권").toList, ("복지").toList, ("봉사").toList, ("자원봉사").toList,
     ("기부").toList])]

/-- High-revenue keywords of the basic revenue model. -/
def revenueKeywordsHigh : List Str :=
  [("구매").toList, ("쇼핑").toList, ("제품").toList, ("판매").toList,
   ("리뷰").toList, ("추천").toList, ("가격").toList, ("할인").toList,
   ("인기").toList, ("베스트").toList, ("화제").toList, ("최신").toList]

/-- Medium-revenue keywords of the basic revenue model. -/
def revenueKeywordsMedium : List Str :=
  [("방법").toList, ("팁").toList, ("가이드").toList, ("정보").toList,
   ("효과").toList, ("혜택").toList, ("비교").toList, ("장점").toList,
   ("단점").toList, ("선택").toList, ("등록").toList, ("신청").toList]

/-- Low-revenue keywords of the basic revenue model. -/
def revenueKeywordsLow : List Str :=
  [("뜻").toList, ("의미").toList, ("근황").toList, ("사연").toList,
   ("이유").toList, ("이슈").toList, ("논란").toList, ("발언").toList,
   ("소식").toList, ("행사").toList, ("일정").toList]

/-- Weighted keyword hits of `_estimate_categories` for one category:
title hits weigh 3, description hits 2, body hits 1 (body only counted for
a non-empty body), all case-insensitively. -/
def categoryScoreBase (a : Article) (kws : List Str) : ℕ :=
  (kws.map (fun kw =>
    (if containsSub (strLower kw) (strLower a.title) then 3 else 0) +
    (if containsSub (strLower kw) (strLower a.description) then 2 else 0) +
    (if a.content ≠ [] ∧ containsSub (strLower kw) (strLower a.content) then 1 else 0))).sum

/-- The `elif` chain of `_estimate_categories` matching the
source-provided category label against taxonomy synonyms: which category,
if any, receives the +2 bonus. -/
def bonusTarget (news_category : Str) : Option Str :=
  let nc := strLower news_category
  if containsSub (("tech").toList) nc ∨ containsSub (("technology").toList) nc then
    some (("tech").toList)
  else if containsSub (("business").toList) nc ∨ containsSub (("finance").toList) nc ∨
      containsSub (("economy").toList) nc then
    some (("business").toList)
  else if containsSub (("health").toList) nc then some (("health").toList)
  else if containsSub (("lifestyle").toList) nc ∨
      containsSub (("entertainment").toList) nc then
    some (("lifestyle").toList)
  else if containsSub (("education").toList) nc then some (("education").toList)
  else if containsSub (("social").toList) nc ∨ containsSub (("society").toList) nc ∨
      containsSub (("politics").toList) nc then
    some (("social").toList)
  else none

/-- The `category_scores` dict of `_estimate_categories`, after the
news-category bonus, in dict order. -/
def category_scores (a : Article) : List (Str × ℕ) :=
  let base := categoryKeywordTable.map (fun p => (p.1, categoryScoreBase a p.2))
  match bonusTarget a.category with
  | none => base
  | some t => base.map (fun p => if p.1 = t then (p.1, p.2 + 2) else p)

/-- Model of `_estimate_categories`: keep categories with positive score, fall back
to `lifestyle` when none qualifies, sort by score descending (stable, so
ties keep dict order) and keep at most 3. -/
def estimate_categories (a : Article) : List Str :=
  let sel := (category_scores a).filter (fun p => 0 < p.2)
  if sel.isEmpty then [("lifestyle").toList]
  else ((List.insertionSort (fun p q : Str × ℕ => q.2 ≤ p.2) sel).map Prod.fst).take 3

/-- One revenue bucket of `_calculate_monetization_score`: title hits
weigh 3, description hits 2, and a hit inside any entry of the article's
keyword list weighs 1 (exact case). -/
def revenueBucket (a : Article) (kws : List Str) : ℕ :=
  (kws.map (fun kw =>
    (if containsSub kw a.title then 3 else 0) +
    (if containsSub kw a.description then 2 else 0) +
    (if a.keywords.any (fun k => containsSub kw k) then 1 else 0))).sum

/-- The three revenue buckets (high, medium, low) after the
estimated-category adjustment: +2 to `high` for tech/business, otherwise
+2 to `medium` for health/lifestyle. -/
def revenue_scores (a : Article) : ℕ × ℕ × ℕ :=
  let high := revenueBucket a revenueKeywordsHigh
  let medium := revenueBucket a revenueKeywordsMedium
  let low := revenueBucket a revenueKeywordsLow
  let cats := estimate_categories a
  if ("tech").toList ∈ cats ∨ ("business").toList ∈ cats then (high + 2, medium, low)
  else if ("health").toList ∈ cats ∨ ("lifestyle").toList ∈ cats then
    (high, medium + 2, low)
  else (high, medium, low)

/-- Model of `_calculate_monetization_score`: 100 when the high bucket strictly
exceeds both others, 70 when the medium bucket strictly exceeds the low
bucket, 30 otherwise. -/
def calculate_monetization_score (a : Article) : ℚ :=
  if (revenue_scores a).1 > (revenue_scores a).2.1 ∧
      (revenue_scores a).1 > (revenue_scores a).2.2 then 100
  else if (revenue_scores a).2.1 > (revenue_scores a).2.2 then 70
  else 30

/-- C4: the monetization score is exactly the tiered constant over the
adjusted buckets — 100 only when `high` strictly exceeds both other
buckets, else 70 when `medium` strictly exceeds `low`, else 30 — and in
particular a `high = medium` tie with both above `low` yields 70, not
100. -/
theorem c4_monetization_tiers (a : Article) :
    (calculate_monetization_score a =
      if (revenue_scores a).1 > (revenue_scores a).2.1 ∧
          (revenue_scores a).1 > (revenue_scores a).2.2 then (100:ℚ)
      else if (revenue_scores a).2.1 > (revenue_scores a).2.2 then 70 else 30) ∧
    ((revenue_scores a).1 = (revenue_scores a).2.1 ∧
      (revenue_scores a).2.2 < (revenue_scores a).2.1 →
      calculate_monetization_score a = 70) := by
  refine ⟨rfl, ?_⟩
  rintro ⟨heq, hlt⟩
  unfold calculate_monetization_score
  rw [if_neg (fun hc => Nat.lt_irrefl _ (heq ▸ hc.1)), if_pos hlt]

/-- Witness article for C4: its adjusted buckets tie at
`high = medium = 5` with `low = 0`. -/
def c4Article : Article :=
  { title := ("구매 AI").toList, description := ("방법 팁").toList, content := [],
    url := [], published_at := [], sourceName := [], category := [], image := [],
    keywords := [("정보").toList] }

/-- Witness for C4 at a concrete input: `c4Article` produces the
`high = medium > low` tie and scores 70. -/
theorem c4_witness :
    revenue_scores c4Article = (5, 5, 0) ∧ calculate_monetization_score c4Article = 70 :=
  ⟨by decide, (c4_monetization_tiers c4Article).2 ⟨by decide, by decide⟩⟩

/-! ## JSON values and the file-system model -/

/-- JSON values; objects are insertion-ordered association lists, like
Python dicts. -/
inductive Json where
  | null
  | bool (b : Bool)
  | num (n : Int)
  | str (s : Str)
  | arr (xs : List Json)
  | obj (fields : List (Str × Json))

/-- Is this JSON value an object (a Python dict)? -/
def Json.isObj : Json → Bool
  | Json.obj _ => true
  | _ => false

/-- Dict/file-system assignment `d[k] = v`: replace in place when the key
exists, append otherwise (Python dict semantics). -/
def setAssoc : List (Str × Json) → Str → Json → List (Str × Json)
  | [], k, v => [(k, v)]
  | (k', v') :: rest, k, v =>
    if k' = k then (k, v) :: rest else (k', v') :: setAssoc rest k v

/-- Dict/file-system lookup. -/
def lookupJ : List (Str × Json) → Str → Option Json
  | [], _ => none
  | (k', v') :: rest, k => if k' = k then some v' else lookupJ rest k

private lemma lookupJ_setAssoc_self (l : List (Str × Json)) (k : Str) (v : Json) :
    lookupJ (setAssoc l k v) k = some v := by
  induction l with
  | nil => simp [setAssoc, lookupJ]
  | cons p rest ih =>
    cases p with
    | mk k' v' =>
      by_cases h : k' = k
      · simp [setAssoc, lookupJ, h]
      · simp [setAssoc, lookupJ, h, ih]

private lemma lookupJ_setAssoc_other (l : List (Str × Json)) (k q : Str) (v : Json)
    (h : q ≠ k) : lookupJ (setAssoc l k v) q = lookupJ l q := by
  induction l with
  | nil =>
    simp only [setAssoc, lookupJ]
    exact if_neg (fun hh => h hh.symm)
  | cons p rest ih =>
    cases p with
    | mk k' v' =>
      by_cases hk : k' = k
      · subst hk
        simp only [setAssoc, if_pos rfl, lookupJ]
        rw [if_neg (fun hh : k' = q => h hh.symm), if_neg (fun hh : k' = q => h hh.symm)]
      · simp only [setAssoc, if_neg hk, lookupJ]
        by_cases hq : k' = q
        · simp [hq]
        · simp [hq, ih]

/-! ## `JsonFileStorage.save_data` -/

/-- The character `\x7b`, first character of the job-id placeholder. -/
def lbrace : Char := Char.ofNat 123

/-- The `job_id` template placeholder of `save_data`'s path templates. -/
def jobIdPlaceholder : Str := ("\x7bjob_id\x7d").toList

/-- The final-path computation of `save_data`: substitute a truthy job id
into the placeholder when the template has one; else append `_<job_id>`
before the extension; else append `_<timestamp>` before the extension. -/
def save_data_path (path : Str) (job_id : Option Str) (now : Str) : Str :=
  match job_id with
  | some j =>
    if j ≠ [] ∧ containsSub jobIdPlaceholder path = true then
      replAll jobIdPlaceholder j path
    else if j ≠ [] then (splitext path).1 ++ '_' :: j ++ (splitext path).2
    else (splitext path).1 ++ '_' :: now ++ (splitext path).2
  | none => (splitext path).1 ++ '_' :: now ++ (splitext path).2

/-- Model of `save_data`: compute the final path, join it under the base directory
and write the JSON data there, returning the new store and the full
path. -/
def save_data (fs : List (Str × Json)) (base_dir : Str) (data : Json) (path : Str)
    (job_id : Option Str) (now : Str) : List (Str × Json) × Str :=
  let full_path := pyJoin base_dir (save_data_path path job_id now)
  (setAssoc fs full_path data, full_path)

private lemma isPre_self_append (pat t : Str) : isPre pat (pat ++ t) = true := by
  induction pat with
  | nil => rfl
  | cons c cs ih => simp [isPre, ih]

private lemma isPre_placeholder_cons_false {c : Char} (h : c ≠ lbrace) (s : Str) :
    isPre jobIdPlaceholder (c :: s) = false := by
  have hp : jobIdPlaceholder = lbrace :: jobIdPlaceholder.tail := by decide
  rw [hp, isPre]
  rw [beq_eq_false_iff_ne.mpr (fun hh : lbrace = c => h hh.symm), Bool.false_and]

private lemma replAll_no_occurrence (j : Str) :
    ∀ p : Str, lbrace ∉ p → replAll jobIdPlaceholder j p = p := by
  intro p
  induction p with
  | nil => intro _; rw [replAll]
  | cons c rest ih =>
    intro h
    have hc : c ≠ lbrace := fun hh => h (hh ▸ List.mem_cons_self _ _)
    rw [replAll, if_neg (by simp [isPre_placeholder_cons_false hc])]
    exact congrArg _ (ih (fun hm => h (List.mem_cons_of_mem _ hm)))

private lemma replAll_single (j p2 : Str) (h2 : lbrace ∉ p2) :
    ∀ p1 : Str, lbrace ∉ p1 →
      replAll jobIdPlaceholder j (p1 ++ jobIdPlaceholder ++ p2) = p1 ++ j ++ p2 := by
  intro p1
  induction p1 with
  | nil =>
    intro _
    obtain ⟨c, tl, hct⟩ : ∃ c tl, jobIdPlaceholder = c :: tl := ⟨_, _, rfl⟩
    simp only [List.nil_append]
    rw [show jobIdPlaceholder ++ p2 = c :: (tl ++ p2) by rw [hct]; rfl]
    rw [replAll, if_pos (by rw [← List.cons_append, ← hct]; exact isPre_self_append _ _)]
    have hlen : jobIdPlaceholder.length - 1 = tl.length := by rw [hct]; rfl
    rw [hlen, List.drop_left, replAll_no_occurrence j p2 h2]
  | cons c p1' ih =>
    intro h1
    have hc : c ≠ lbrace := fun hh => h1 (hh ▸ List.mem_cons_self _ _)
    rw [List.cons_append, List.cons_append, replAll,
      if_neg (by simp [isPre_placeholder_cons_false hc])]
    rw [ih (fun hm => h1 (List.mem_cons_of_mem _ hm))]
    rfl

private lemma pyJoin_under_base (base p : Str) (hb : base ≠ [])
    (hbl : base.getLast? ≠ some '/') (hp : p.head? ≠ some '/') :
    pyJoin base p = base ++ '/' :: p := by
  unfold pyJoin
  rw [if_neg hp, if_neg hb, if_neg hbl]

/-- C8: the three-way naming policy of `saveArtifact`.  With a truthy job
id and a template that contains the placeholder exactly once (braces occur
nowhere else), the id is substituted exactly once; with a job id but no
placeholder, `_<jobID>` is appended before the extension; with no job id,
`_<timestamp>` is appended before the extension; the full path is the
final path joined under the base directory, and any relative final path
lands strictly under the base directory. -/
theorem c8_save_data_naming_policy (base j now : Str) (hj : j ≠ [])
    (hb : base ≠ []) (hbl : base.getLast? ≠ some '/') :
    (∀ p1 p2, lbrace ∉ p1 → lbrace ∉ p2 →
      save_data_path (p1 ++ jobIdPlaceholder ++ p2) (some j) now = p1 ++ j ++ p2) ∧
    (∀ q, containsSub jobIdPlaceholder q = false →
      save_data_path q (some j) now = (splitext q).1 ++ '_' :: j ++ (splitext q).2) ∧
    (∀ q, save_data_path q none now = (splitext q).1 ++ '_' :: now ++ (splitext q).2) ∧
    (∀ fs data p jid, (save_data fs base data p jid now).2
        = pyJoin base (save_data_path p jid now)) ∧
    (∀ p, p.head? ≠ some '/' → isPre (base ++ ['/']) (pyJoin base p) = true) := by
  refine ⟨?_, ?_, ?_, fun _ _ _ _ => rfl, ?_⟩
  · intro p1 p2 h1 h2
    have hocc : containsSub jobIdPlaceholder (p1 ++ jobIdPlaceholder ++ p2) = true := by
      clear hj
      induction p1 with
      | nil =>
        rw [List.nil_append, containsSub.eq_def]
        obtain ⟨c, tl, hct⟩ : ∃ c tl, jobIdPlaceholder = c :: tl := ⟨_, _, rfl⟩
        rw [show jobIdPlaceholder ++ p2 = c :: (tl ++ p2) by rw [hct]; rfl]
        simp only
        rw [← List.cons_append, ← hct, isPre_self_append]
        rfl
      | cons c p1' ih =>
        rw [List.cons_append, List.cons_append, containsSub,
          ih (fun hm => h1 (List.mem_cons_of_mem _ hm)), Bool.or_true]
    rw [save_data_path, if_pos ⟨hj, hocc⟩]
    exact replAll_single j p2 h2 p1 h1
  · intro q hq
    rw [save_data_path, if_neg (fun hc => by rw [hq] at hc; exact absurd hc.2 (by simp)),
      if_pos hj]
  · intro q; rfl
  · intro p hp
    rw [pyJoin_under_base base p hb hbl hp,
      show base ++ '/' :: p = (base ++ ['/']) ++ p by
        rw [List.append_assoc, List.singleton_append]]
    exact isPre_self_append _ _

/-- Witness for C8 at a concrete input: substituting job id `abc` into
the template `trends/trends_<placeholder>.json` yields
`trends/trends_abc.json`. -/
theorem c8_witness :
    save_data_path ((("trends/trends_").toList) ++ jobIdPlaceholder ++ ((".json").toList))
        (some (("abc").toList)) (("T").toList)
      = ("trends/trends_abc.json").toList := by
  rw [(c8_save_data_naming_policy (("data").toList) (("abc").toList) (("T").toList)
    (by decide) (by decide) (by decide)).1 (("trends/trends_").toList) ((".json").toList)
    (by decide) (by decide)]
  decide

/-! ## `JsonFileStorage.create_metadata` -/

/-- Model of `create_metadata`: write the metadata under
`metadata/job_<job_id>.json` via `save_data` — called *without* a job id,
so `save_data` takes its timestamp branch. -/
def create_metadata (fs : List (Str × Json)) (base_dir : Str) (job_id : Str)
    (metadata : Json) (now : Str) : List (Str × Json) × Str :=
  save_data fs base_dir metadata
    ((("metadata/job_").toList) ++ job_id ++ ((".json").toList)) none now

private lemma extLen_cons (c : Char) (rest : Str) (acc : ℕ) (h1 : c ≠ '/') (h2 : c ≠ '.') :
    extLen (c :: rest) acc = extLen rest (acc + 1) := by
  rw [extLen, if_neg h1, if_neg h2]

private lemma hasNonDot_append (rest : Str) :
    ∀ l : Str, '/' ∉ l → hasNonDotBeforeSlash (l ++ '_' :: rest) = true := by
  intro l
  induction l with
  | nil =>
    intro _
    rw [List.nil_append, hasNonDotBeforeSlash, if_neg (by decide), if_neg (by decide)]
  | cons c l' ih =>
    intro h
    have hc : c ≠ '/' := fun hh => h (hh ▸ List.mem_cons_self _ _)
    by_cases hd : c = '.'
    · rw [List.cons_append, hasNonDotBeforeSlash, if_neg hc, if_pos hd]
      exact ih (fun hm => h (List.mem_cons_of_mem _ hm))
    · rw [List.cons_append, hasNonDotBeforeSlash, if_neg hc, if_neg hd]

private lemma splitext_metadata (id : Str) (hid : '/' ∉ id) :
    splitext ((("metadata/job_").toList) ++ id ++ ((".json").toList))
      = ((("metadata/job_").toList) ++ id, (".json").toList) := by
  have hB : (((".json").toList)).reverse = ['n', 'o', 's', 'j', '.'] := by decide
  have hrev : ((("metadata/job_").toList) ++ id ++ ((".json").toList)).reverse
      = 'n' :: 'o' :: 's' :: 'j' :: '.' ::
        (id.reverse ++ ((("metadata/job_").toList)).reverse) := by
    rw [List.reverse_append, List.reverse_append, hB]
    simp [List.cons_append, List.append_assoc]
  have hA : (((("metadata/job_").toList)).reverse)
      = '_' :: (("metadata/job").toList).reverse := by decide
  have hnd : hasNonDotBeforeSlash
      (id.reverse ++ ((("metadata/job_").toList)).reverse) = true := by
    rw [hA]
    exact hasNonDot_append _ id.reverse (by simp [hid])
  have hext : extLen ((("metadata/job_").toList) ++ id ++ ((".json").toList)).reverse 0
      = some 5 := by
    rw [hrev, extLen_cons _ _ _ (by decide) (by decide),
      extLen_cons _ _ _ (by decide) (by decide), extLen_cons _ _ _ (by decide) (by decide),
      extLen_cons _ _ _ (by decide) (by decide), extLen, if_neg (by decide), if_pos rfl,
      hnd]
    rfl
  have hlen13 : ((("metadata/job_").toList)).length = 13 := by decide
  have hlen : ((("metadata/job_").toList) ++ id ++ ((".json").toList)).length - 5
      = ((("metadata/job_").toList) ++ id).length := by
    simp only [List.length_append, hlen13]
    have : (((".json").toList)).length = 5 := by decide
    rw [this]
    omega
  unfold splitext
  rw [hext]
  have hP : (("metadata/job_").toList) ++ id ++ ((".json").toList)
      = ((("metadata/job_").toList) ++ id) ++ ((".json").toList) := by
    rw [List.append_assoc]
  simp only [hlen]
  rw [hP, List.take_left, List.drop_left]

/-- C1 (amended): `create_metadata` performs no existence check and cannot
fail.  It always writes a new record file named
`metadata/job_<jobID>_<timestamp>.json` under the base directory — the
timestamp branch of `save_data`, since `create_metadata` passes no job
id — returns that path, and leaves every other stored file (in particular
any earlier record for the same job id, whose name carries a different
timestamp) unchanged. -/
theorem c1_create_metadata_amended (fs : List (Str × Json)) (base id now : Str) (m : Json)
    (hid : '/' ∉ id) (hb : base ≠ []) (hbl : base.getLast? ≠ some '/') :
    (create_metadata fs base id m now).2
        = base ++ '/' :: ((("metadata/job_").toList) ++ id ++ '_' :: now ++
            ((".json").toList)) ∧
    lookupJ (create_metadata fs base id m now).1 (create_metadata fs base id m now).2
        = some m ∧
    (∀ q, q ≠ (create_metadata fs base id m now).2 →
      lookupJ (create_metadata fs base id m now).1 q = lookupJ fs q) := by
  have hpath : save_data_path ((("metadata/job_").toList) ++ id ++ ((".json").toList))
      none now = (("metadata/job_").toList) ++ id ++ '_' :: now ++ ((".json").toList) := by
    show (splitext ((("metadata/job_").toList) ++ id ++ ((".json").toList))).1 ++
        '_' :: now ++ (splitext ((("metadata/job_").toList) ++ id ++
          ((".json").toList))).2
      = (("metadata/job_").toList) ++ id ++ '_' :: now ++ ((".json").toList)
    rw [splitext_metadata id hid, List.append_assoc]
  have hhead : ((("metadata/job_").toList) ++ id ++ '_' :: now ++
      ((".json").toList)).head? = some 'm' := rfl
  refine ⟨?_, lookupJ_setAssoc_self _ _ _, fun q hq => lookupJ_setAssoc_other _ _ _ _ hq⟩
  show pyJoin base (save_data_path ((("metadata/job_").toList) ++ id ++
    ((".json").toList)) none now) = _
  rw [hpath, pyJoin_under_base base _ hb hbl (by rw [hhead]; decide)]

/-- C1 is false as stated: after a record for job id `j1` already exists,
`create_metadata` does not fail with any `AlreadyExists` error — the
function is total, with no existence check and no error channel — it
succeeds again, returning the path of a second, freshly timestamped record
file, while the first record remains stored.  (The second clause of the
claim, that a fresh job id gets a new record file, does hold, but the
record's name is `job_<id>_<timestamp>.json`, not `job_<id>.json`.) -/
theorem c1_create_metadata_counterexample :
    (create_metadata
        (create_metadata [] (("data").toList) (("j1").toList)
          (Json.obj [((("status").toList), Json.str (("started").toList))])
          (("T1").toList)).1
        (("data").toList) (("j1").toList) (Json.obj []) (("T2").toList)).2
      = ("data/metadata/job_j1_T2.json").toList ∧
    lookupJ (create_metadata
        (create_metadata [] (("data").toList) (("j1").toList)
          (Json.obj [((("status").toList), Json.str (("started").toList))])
          (("T1").toList)).1
        (("data").toList) (("j1").toList) (Json.obj []) (("T2").toList)).1
      (("data/metadata/job_j1_T1.json").toList)
      = some (Json.obj [((("status").toList), Json.str (("started").toList))]) ∧
    lookupJ (create_metadata
        (create_metadata [] (("data").toList) (("j1").toList)
          (Json.obj [((("status").toList), Json.str (("started").toList))])
          (("T1").toList)).1
        (("data").toList) (("j1").toList) (Json.obj []) (("T2").toList)).1
      (("data/metadata/job_j1_T2.json").toList)
      = some (Json.obj []) :=
  ⟨rfl, rfl, rfl⟩

/-! ## `JsonFileStorage.update_metadata` -/

/-- The dotted-key traversal of `update_metadata`: walk the nested dicts
along the key path, creating missing intermediate dicts, and set the leaf.
A non-dict value met anywhere along the path (Python: `TypeError` on
indexing or item assignment) is a failure, returned as `none`. -/
def setPath : Json → List Str → Json → Option Json
  | Json.obj fields, [k], v => some (Json.obj (setAssoc fields k v))
  | Json.obj fields, k :: k2 :: rest, v =>
    (match setPath ((lookupJ fields k).getD (Json.obj [])) (k2 :: rest) v with
     | some sub => some (Json.obj (setAssoc fields k sub))
     | none => none)
  | _, _, _ => none

/-- The on-disk path of a job's metadata record,
`<base>/metadata/job_<job_id>.json`. -/
def metaPath (base job_id : Str) : Str :=
  pyJoin base ((("metadata/job_").toList) ++ job_id ++ ((".json").toList))

/-- Model of `update_metadata`: load the record (returning `False` when missing),
apply the dotted-key update (returning `False` on a failed traversal,
with all exceptions swallowed), stamp `updated_at`, and write the record
back.  Returns the success flag and the resulting store. -/
def update_metadata (fs : List (Str × Json)) (base job_id key : Str) (v : Json)
    (now : Str) : Bool × List (Str × Json) :=
  match lookupJ fs (metaPath base job_id) with
  | none => (false, fs)
  | some m =>
    match setPath m (splitOnChar '.' key) v with
    | none => (false, fs)
    | some m1 =>
      match m1 with
      | Json.obj fields =>
        (true, setAssoc fs (metaPath base job_id)
          (Json.obj (setAssoc fields (("updated_at").toList) (Json.str now))))
      | _ => (false, fs)

/-- C10: whenever `update_metadata` fails — in particular when it has
located the record but the dotted-key traversal meets a non-dict value —
it returns `False` rather than raising, and the store is left completely
unchanged: no partial update and no `updated_at` refresh. -/
theorem c10_update_metadata_failure_unchanged (fs : List (Str × Json))
    (base job_id key : Str) (v : Json) (now : Str) :
    ((update_metadata fs base job_id key v now).1 = false →
      (update_metadata fs base job_id key v now).2 = fs) ∧
    (∀ m, lookupJ fs (metaPath base job_id) = some m →
      setPath m (splitOnChar '.' key) v = none →
      update_metadata fs base job_id key v now = (false, fs)) := by
  have hcases : update_metadata fs base job_id key v now = (false, fs) ∨
      (update_metadata fs base job_id key v now).1 = true := by
    unfold update_metadata
    split
    · exact Or.inl rfl
    · split
      · exact Or.inl rfl
      · split
        · exact Or.inr rfl
        · exact Or.inl rfl
  constructor
  · intro hf
    rcases hcases with h | h
    · rw [h]
    · rw [h] at hf
      exact absurd hf (by simp)
  · intro m hl hs
    simp only [update_metadata, hl, hs]

/-- Witness for C10 at a concrete input: the record for `j1` maps `a` to
the number 5, so updating the dotted key `a.b` hits a non-dict
intermediate; the call returns `False` and the store is unchanged. -/
theorem c10_witness :
    update_metadata
        [(metaPath (("data").toList) (("j1").toList),
          Json.obj [((("a").toList), Json.num 5)])]
        (("data").toList) (("j1").toList) (("a.b").toList) (Json.num 7) (("T").toList)
      = (false,
          [(metaPath (("data").toList) (("j1").toList),
            Json.obj [((("a").toList), Json.num 5)])]) :=
  (c10_update_metadata_failure_unchanged
      [(metaPath (("data").toList) (("j1").toList),
        Json.obj [((("a").toList), Json.num 5)])]
      (("data").toList) (("j1").toList) (("a.b").toList) (Json.num 7)
      (("T").toList)).2
    (Json.obj [((("a").toList), Json.num 5)]) rfl rfl

/-! ## `JsonFileStorage.find_latest_job` -/

/-- A file of the metadata directory: name, modification time, parsed
JSON content. -/
structure MetaFile where
  name : Str
  mtime : ℕ
  content : Json

/-- The filename filter of `find_latest_job`:
`f.startswith('job_') and f.endswith('.json')`. -/
def isJobFile (f : MetaFile) : Bool :=
  isPre (("job_").toList) f.name && endsWith ((".json").toList) f.name

/-- Value of `metadata.get('status')` when it produces a string (any other value
never equals the string filter). -/
def statusOf (j : Json) : Option Str :=
  match j with
  | Json.obj fields =>
    (match lookupJ fields (("status").toList) with
     | some (Json.str s) => some s
     | _ => none)
  | _ => none

/-- The status-filtered scan of `find_latest_job` over the
mtime-descending file list: return the first record whose `status` equals
the filter (`metadata.get('status') == status`); a non-dict record raises
(`.get` on a non-dict), which the enclosing handler turns into an overall
`None`. -/
def scanStatus (s : Str) : List MetaFile → Except Unit (Option Json)
  | [] => Except.ok none
  | f :: rest =>
    if Json.isObj f.content then
      (if statusOf f.content = some s then Except.ok (some f.content) else scanStatus s rest)
    else Except.error ()

/-- Model of `find_latest_job`: among files named `job_*.json`, sort by mtime
descending (stably); with a status filter return the first match, falling
back to the newest record when nothing matches; without a filter return
the newest record; `None` when the directory has no job files (or a scan
error occurred). -/
def find_latest_job (entries : List MetaFile) (status? : Option Str) : Option Json :=
  let files := entries.filter isJobFile
  if files.isEmpty then none
  else
    let latest := List.insertionSort (fun f g : MetaFile => g.mtime ≤ f.mtime) files
    match status? with
    | some s =>
      (match scanStatus s latest with
       | Except.error _ => none
       | Except.ok (some m) => some m
       | Except.ok none => latest.head?.map (fun f => f.content))
    | none => latest.head?.map (fun f => f.content)

private lemma scanStatus_no_match (s : Str) :
    ∀ L : List MetaFile, (∀ f ∈ L, Json.isObj f.content = true) →
      (∀ f ∈ L, statusOf f.content ≠ some s) → scanStatus s L = Except.ok none := by
  intro L
  induction L with
  | nil => intro _ _; rfl
  | cons f rest ih =>
    intro hobj hno
    rw [scanStatus, if_pos (hobj f (List.mem_cons_self _ _)),
      if_neg (hno f (List.mem_cons_self _ _))]
    exact ih (fun g hg => hobj g (List.mem_cons_of_mem _ hg))
      (fun g hg => hno g (List.mem_cons_of_mem _ hg))

private lemma scanStatus_first_match (s : Str) :
    ∀ L : List MetaFile, (∀ f ∈ L, Json.isObj f.content = true) →
      List.Pairwise (fun f g : MetaFile => g.mtime ≤ f.mtime) L →
      (∃ f ∈ L, statusOf f.content = some s) →
      ∃ f ∈ L, statusOf f.content = some s ∧
        scanStatus s L = Except.ok (some f.content) ∧
        ∀ g ∈ L, statusOf g.content = some s → g.mtime ≤ f.mtime := by
  intro L
  induction L with
  | nil => intro _ _ hex; exact absurd hex (by simp)
  | cons f rest ih =>
    intro hobj hpw hex
    by_cases hmatch : statusOf f.content = some s
    · refine ⟨f, List.mem_cons_self _ _, hmatch, ?_, ?_⟩
      · rw [scanStatus, if_pos (hobj f (List.mem_cons_self _ _)), if_pos hmatch]
      · intro g hg _
        rcases List.mem_cons.mp hg with rfl | hg'
        · exact le_refl _
        · exact (List.pairwise_cons.mp hpw).1 g hg'
    · have hex' : ∃ g ∈ rest, statusOf g.content = some s := by
        rcases hex with ⟨g, hg, hgs⟩
        rcases List.mem_cons.mp hg with rfl | hg'
        · exact absurd hgs hmatch
        · exact ⟨g, hg', hgs⟩
      obtain ⟨g, hg, hgs, hscan, hmax⟩ := ih
        (fun x hx => hobj x (List.mem_cons_of_mem _ hx))
        (List.pairwise_cons.mp hpw).2 hex'
      refine ⟨g, List.mem_cons_of_mem _ hg, hgs, ?_, ?_⟩
      · rw [scanStatus, if_pos (hobj f (List.mem_cons_self _ _)), if_neg hmatch]
        exact hscan
      · intro x hx hxs
        rcases List.mem_cons.mp hx with rfl | hx'
        · exact absurd hxs hmatch
        · exact hmax x hx' hxs

/-- C6: whenever at least one job record exists (and records parse as
dicts, as the system writes them), `find_latest_job` without a filter
returns the most-recently-modified record; with a filter no record
matches, it still returns the most-recently-modified record (never
`none`); and with a filter some record matches, it returns the
most-recently-modified record whose status equals the filter. -/
theorem c6_find_latest_job_fallback (entries : List MetaFile) (s : Str)
    (hne : (entries.filter isJobFile).isEmpty = false)
    (hobj : ∀ f ∈ entries.filter isJobFile, Json.isObj f.content = true) :
    (∃ f ∈ entries.filter isJobFile,
        find_latest_job entries none = some f.content ∧
        ∀ g ∈ entries.filter isJobFile, g.mtime ≤ f.mtime) ∧
    ((∀ f ∈ entries.filter isJobFile, statusOf f.content ≠ some s) →
        find_latest_job entries (some s) = find_latest_job entries none) ∧
    ((∃ f ∈ entries.filter isJobFile, statusOf f.content = some s) →
        ∃ f ∈ entries.filter isJobFile, statusOf f.content = some s ∧
          find_latest_job entries (some s) = some f.content ∧
          ∀ g ∈ entries.filter isJobFile, statusOf g.content = some s →
            g.mtime ≤ f.mtime) := by
  haveI : IsTotal MetaFile (fun f g : MetaFile => g.mtime ≤ f.mtime) :=
    ⟨fun a b => le_total b.mtime a.mtime⟩
  haveI : IsTrans MetaFile (fun f g : MetaFile => g.mtime ≤ f.mtime) :=
    ⟨fun _ _ _ h1 h2 => le_trans h2 h1⟩
  have hperm := List.perm_insertionSort (fun f g : MetaFile => g.mtime ≤ f.mtime)
    (entries.filter isJobFile)
  have hsorted := List.sorted_insertionSort (fun f g : MetaFile => g.mtime ≤ f.mtime)
    (entries.filter isJobFile)
  have hmem : ∀ x, (x ∈ List.insertionSort (fun f g : MetaFile => g.mtime ≤ f.mtime)
      (entries.filter isJobFile)) ↔ x ∈ entries.filter isJobFile :=
    fun x => List.mem_insertionSort _
  have hne' : entries.filter isJobFile ≠ [] := fun h => by simp [h] at hne
  have hlat_ne : List.insertionSort (fun f g : MetaFile => g.mtime ≤ f.mtime)
      (entries.filter isJobFile) ≠ [] := fun h => hne' ((h ▸ hperm.symm).eq_nil)
  have hcond : ¬ ((entries.filter isJobFile).isEmpty = true) := by
    rw [hne]; exact Bool.false_ne_true
  obtain ⟨h0, t0, hlat⟩ : ∃ h0 t0,
      List.insertionSort (fun f g : MetaFile => g.mtime ≤ f.mtime)
        (entries.filter isJobFile) = h0 :: t0 := by
    cases hL : List.insertionSort (fun f g : MetaFile => g.mtime ≤ f.mtime)
        (entries.filter isJobFile) with
    | nil => exact absurd hL hlat_ne
    | cons a b => exact ⟨a, b, rfl⟩
  have hh0mem : h0 ∈ entries.filter isJobFile :=
    (hmem h0).mp (hlat ▸ List.mem_cons_self h0 t0)
  have hh0max : ∀ g ∈ entries.filter isJobFile, g.mtime ≤ h0.mtime := by
    intro g hgf
    have hg : g ∈ h0 :: t0 := hlat ▸ ((hmem g).mpr hgf)
    rcases List.mem_cons.mp hg with rfl | hg'
    · exact le_refl _
    · exact List.rel_of_sorted_cons (hlat ▸ hsorted) g hg'
  have hfind_none : find_latest_job entries none = some h0.content := by
    unfold find_latest_job
    rw [if_neg hcond, hlat]
    rfl
  refine ⟨⟨h0, hh0mem, hfind_none, hh0max⟩, ?_, ?_⟩
  · intro hno
    have hscan : scanStatus s (List.insertionSort
        (fun f g : MetaFile => g.mtime ≤ f.mtime) (entries.filter isJobFile))
        = Except.ok none :=
      scanStatus_no_match s _ (fun f hf => hobj f ((hmem f).mp hf))
        (fun f hf => hno f ((hmem f).mp hf))
    unfold find_latest_job
    rw [if_neg hcond, if_neg hcond]
    dsimp only
    rw [hscan]
  · intro hex
    obtain ⟨f, hf, hfs, hscan, hmax⟩ := scanStatus_first_match s
      (List.insertionSort (fun f g : MetaFile => g.mtime ≤ f.mtime)
        (entries.filter isJobFile))
      (fun x hx => hobj x ((hmem x).mp hx)) hsorted
      (by rcases hex with ⟨f, hf, hfs⟩; exact ⟨f, (hmem f).mpr hf, hfs⟩)
    refine ⟨f, (hmem f).mp hf, hfs, ?_, fun g hg hgs => hmax g ((hmem g).mpr hg) hgs⟩
    unfold find_latest_job
    rw [if_neg hcond]
    dsimp only
    rw [hscan]

/-- First record of the C6 witness: older, status `completed`. -/
def c6File1 : MetaFile :=
  { name := ("job_a.json").toList, mtime := 1,
    content := Json.obj [((("status").toList), Json.str (("completed").toList))] }

/-- Second record of the C6 witness: most recent, status `failed`. -/
def c6File2 : MetaFile :=
  { name := ("job_b.json").toList, mtime := 2,
    content := Json.obj [((("status").toList), Json.str (("failed").toList))] }

/-- A non-job file of the C6 witness, ignored by the name filter. -/
def c6File3 : MetaFile :=
  { name := ("notes.txt").toList, mtime := 9, content := Json.null }

/-- Witness for C6 at a concrete input: with the impossible status filter
`zzz`, `find_latest_job` still returns the most recent record (the
`failed` one), exactly what the unfiltered call returns. -/
theorem c6_witness :
    find_latest_job [c6File1, c6File2, c6File3] (some (("zzz").toList))
        = find_latest_job [c6File1, c6File2, c6File3] none ∧
    find_latest_job [c6File1, c6File2, c6File3] none = some c6File2.content :=
  ⟨(c6_find_latest_job_fallback [c6File1, c6File2, c6File3] (("zzz").toList)
      (by decide) (by decide)).2.1 (by decide), rfl⟩

/-- Witness for the amended C1 at a concrete input: creating metadata for
job `j9` at timestamp `T9` returns the timestamped record path. -/
theorem c1_witness :
    (create_metadata [] (("data").toList) (("j9").toList) Json.null (("T9").toList)).2
      = ("data/metadata/job_j9_T9.json").toList := by
  rw [(c1_create_metadata_amended [] (("data").toList) (("j9").toList) (("T9").toList)
    Json.null (by decide) (by decide) (by decide)).1]
  decide

end Autoblog
